import Mathlib

/-!
Verification development for the `Season` entity of the zine static-site
generator (`src/entity/season.rs`).

The Rust code is shallowly embedded:
* filesystem reads, TOML deserialization, the jieba tokenizer, the child
  `Article` entity's own `parse`/`render` and the templating sink are the
  external collaborators of the core and are passed as function parameters;
* `std`'s `sort_unstable_by_key` guarantees only that the result is a
  permutation of the input sorted by the key (the relative order of
  equal-key elements is unspecified), so the sort is a function parameter
  constrained by exactly that contract where a theorem needs it;
* `BTreeMap<String, u32>` is embedded as a strictly-key-sorted association
  list (`bmAdd` reproduces `entry().or_insert(0); *count += 1`);
* `tera::Context` is embedded as a string-keyed store where `insert`
  overwrites: lookup sees the most recent insert of a key;
* paths are lists of components, `join` is append;
* `fs::read_to_string` is a `Path → Option String`: `none` models a
  missing/unreadable file (an io error).  Invalid-UTF-8 contents are not
  modelled separately; no claim distinguishes them;
* machine integers are `Nat` with explicit wrap where the source's
  arithmetic can overflow: the `u32` word counter wraps modulo `U32 = 2^32`
  and the `usize` sibling-index arithmetic wraps modulo `USIZE = 2^64`
  (a 64-bit target).  This is the release-build semantics; debug builds
  panic at these overflow points instead of wrapping.
-/

namespace Zine

/-- A filesystem path, as its list of components; `Path::join` is append. -/
abbrev FsPath := List String

/-- Modelled from the spec: the fixed conventional manifest filename
(`crate::ZINE_FILE`, declared outside the given core; the season doc comment
names it `zine.toml`). -/
def ZINE_FILE : String := "zine.toml"

/-- Error kinds of the parse phase (§7 of the spec); `anyhow` propagates the
collaborator's error verbatim, so child parse errors reuse this type. -/
inductive ParseErr where
  | ioError
  | manifestFormatError
  | childError
deriving DecidableEq, Repr

/-- Error kinds of the render phase. -/
inductive RenderErr where
  | childRenderError
  | sinkError
deriving DecidableEq, Repr

/-- Modelled from the spec: the child-entity boundary (§6).  `Article` lives
in `src/entity/article.rs`, outside the given core; the core only uses its
publication date (for sorting), its slug (for output pathing) and its raw
markdown content (for tokenization). -/
structure Article where
  slug : String
  pub_date : Int
  markdown : String
deriving DecidableEq, Repr

/-- The season entity config (`struct Season`).  `word_count` embeds
`BTreeMap<String, u32>` as a strictly-key-sorted association list. -/
structure Season where
  slug : String
  number : Nat
  title : String
  intro : Option String
  cover : Option String
  path : String
  articles : List Article
  word_count : List (String × Nat)
deriving DecidableEq, Repr

/-- `usize` on a 64-bit target: index arithmetic wraps modulo `2^64` in
release builds (debug builds panic on overflow). -/
def USIZE : Nat := 18446744073709551616

/-- `Season::sibling_articles`, idealized on unbounded indices: positional
lookup of the previous and next article; `Vec::get` is the bounds-checked
`l[i]?`.  This coincides with the machine-level `sibling_articlesU` below
for every index whose successor does not overflow `usize`
(`sibling_articlesU_eq_of_no_overflow`), i.e. for every index except
`usize::MAX`. -/
def Season.sibling_articles (s : Season) (current : Nat) :
    Option Article × Option Article :=
  if current = 0 then
    (none, s.articles[current + 1]?)
  else
    (s.articles[current - 1]?, s.articles[current + 1]?)

/-- `Season::sibling_articles` with the machine-level `usize` index
arithmetic of the source: `current + 1` (and `current - 1`, which the
`current == 0` guard keeps from underflowing) wraps modulo `USIZE` as in
release builds.  At `current = usize::MAX` the successor index wraps to 0;
debug builds panic on that `current + 1` instead. -/
def sibling_articlesU (s : Season) (current : Nat) :
    Option Article × Option Article :=
  if current = 0 then
    (none, s.articles[(current + 1) % USIZE]?)
  else
    (s.articles[(current - 1) % USIZE]?, s.articles[(current + 1) % USIZE]?)

/-- `Season::description`: extract a description from the intro markdown,
defaulting to the empty string.  `extract_description_from_markdown` is an
external collaborator passed as `extractDesc`. -/
def Season.description (extractDesc : String → String) (s : Season) : String :=
  match s.intro with
  | some intro => extractDesc intro
  | none => ""

/-! ### The `BTreeMap<String, u32>` model

`BTreeMap` orders `String` keys by `Ord`, which is lexicographic.  The
comparison is embedded as the structurally recursive `strLt` (so that the
kernel can evaluate it on literals); `strLt_iff` identifies it with the
standard lexicographic `String` order. -/

/-- Lexicographic comparison of character lists. -/
def strLtAux : List Char → List Char → Bool
  | [], [] => false
  | [], _ :: _ => true
  | _ :: _, [] => false
  | a :: as, b :: bs =>
    if a < b then true
    else if b < a then false
    else strLtAux as bs

/-- Lexicographic comparison of strings (Rust's `Ord` for `String`). -/
def strLt (s t : String) : Bool := strLtAux s.data t.data

/-- Lookup in the association-list map. -/
def bmLookup (m : List (String × Nat)) (k : String) : Option Nat :=
  match m with
  | [] => none
  | (k1, v) :: rest => if k = k1 then some v else bmLookup rest k

/-- `u32`: the word counter wraps modulo `2^32` in release builds (debug
builds panic on overflow). -/
def U32 : Nat := 4294967296

/-- `word_count.entry(word).or_insert(0); *count += 1` on the sorted
association list: insert the key with count 1 (`0 + 1`, which cannot
wrap), or bump its `u32` count modulo `U32` (release-build wrapping;
debug builds panic at `2^32`). -/
def bmAdd (m : List (String × Nat)) (k : String) : List (String × Nat) :=
  match m with
  | [] => [(k, 1)]
  | (k1, v) :: rest =>
    if strLt k k1 then (k, 1) :: (k1, v) :: rest
    else if k = k1 then (k1, (v + 1) % U32) :: rest
    else (k1, v) :: bmAdd rest k

/-- The `BTreeMap` representation invariant: keys strictly increase in the
lexicographic `String` order. -/
def BmSorted (m : List (String × Nat)) : Prop :=
  List.Pairwise (fun p q => strLt p.1 q.1 = true) m

/-- Number of occurrences of a token in a token list. -/
def countOcc (w : String) : List String → Nat
  | [] => 0
  | x :: rest => (if x = w then 1 else 0) + countOcc w rest

/-- The inner loop of the word-frequency pass: count every token of
character length > 1 (`word.chars().count() > 1`). -/
def addWords (m : List (String × Nat)) (ws : List String) : List (String × Nat) :=
  ws.foldl (fun m w => if 1 < w.length then bmAdd m w else m) m

/-- The word-frequency pass of `Season::parse`: a fresh map accumulated over
every article's markdown, tokenized by the collaborator `cut` (jieba). -/
def countTokens (cut : String → List String) (arts : List Article) :
    List (String × Nat) :=
  arts.foldl (fun m a => addWords m (cut a.markdown)) []

/-! ### The parse phase -/

/-- Outcome of `Season::parse`: the returned `Result`, the season's state
after the call (`parse` mutates `self` in place), and the trace of the
filesystem reads the season's own code issued (child parses read through
their own collaborator and are not traced). -/
structure ParseOutcome where
  result : Except ParseErr Unit
  state : Season
  reads : List FsPath
deriving Repr

/-- Modelled from the spec: `self.articles.parse(&dir)` uses the `Entity`
impl for `Vec<Article>` (outside the given core), which parses each child in
order against the directory and propagates the first failure, leaving the
failing and later entries unmodified. -/
def parseArticles (aParse : Article → FsPath → Except ParseErr Article)
    (dir : FsPath) : List Article → List Article × Option ParseErr
  | [] => ([], none)
  | a :: rest =>
    match aParse a dir with
    | .error e => (a :: rest, some e)
    | .ok a2 =>
      let (rest2, err) := parseArticles aParse dir rest
      (a2 :: rest2, err)

/-- `Season::parse` after the intro step: read and deserialize the manifest,
replace the articles, sort them (the `sorter` parameter stands for
`sort_unstable_by_key(|article| article.pub_date)`), parse each article,
then run the word-frequency pass. -/
def Season.parseAfterIntro (fs : FsPath → Option String)
    (toml : String → Option (List Article))
    (sorter : List Article → List Article)
    (aParse : Article → FsPath → Except ParseErr Article)
    (cut : String → List String)
    (s : Season) (source : FsPath) (reads0 : List FsPath) : ParseOutcome :=
  let dir := source ++ [s.path]
  let pz := dir ++ [ZINE_FILE]
  let reads := reads0 ++ [pz]
  match fs pz with
  | none => ⟨.error .ioError, s, reads⟩
  | some content =>
    match toml content with
    | none => ⟨.error .manifestFormatError, s, reads⟩
    | some arts =>
      let sorted := sorter arts
      match parseArticles aParse dir sorted with
      | (partial0, some e) => ⟨.error e, { s with articles := partial0 }, reads⟩
      | (parsed, none) =>
          ⟨.ok (), { s with articles := parsed,
                            word_count := countTokens cut parsed }, reads⟩

/-- `Season::parse`: first the intro step (if `intro` holds a path, read the
file at `source.join(intro_path)` and replace `intro` with its content,
failing with an io error if unreadable), then the manifest/sort/recursion/
word-frequency steps. -/
def Season.parse (fs : FsPath → Option String)
    (toml : String → Option (List Article))
    (sorter : List Article → List Article)
    (aParse : Article → FsPath → Except ParseErr Article)
    (cut : String → List String)
    (s : Season) (source : FsPath) : ParseOutcome :=
  match s.intro with
  | some introPath =>
    let p1 := source ++ [introPath]
    match fs p1 with
    | none => ⟨.error .ioError, s, [p1]⟩
    | some text =>
      Season.parseAfterIntro fs toml sorter aParse cut
        { s with intro := some text } source [p1]
  | none => Season.parseAfterIntro fs toml sorter aParse cut s source []

/-- The contract of `sort_unstable_by_key(|article| article.pub_date)` at
one call: the output is a permutation of the input whose publication dates
are ascending.  Nothing more is guaranteed: the order of equal-date entries
is unspecified. -/
def IsValidUnstableSort (input output : List Article) : Prop :=
  output.Perm input ∧ List.Sorted (· ≤ ·) (output.map Article.pub_date)

/-! ### The render phase -/

/-- Values stored in the template context by this core. -/
inductive TValue where
  | season : Season → TValue
  | siblings : Option Article × Option Article → TValue
  | num : Nat → TValue
  | metaV : String → String → Option String → Option String → TValue
deriving DecidableEq, Repr

/-- The template context (`tera::Context`): a string-keyed store. -/
abbrev Ctx := List (String × TValue)

/-- `Context::insert`: the new binding shadows any previous one. -/
def ctxInsert (c : Ctx) (k : String) (v : TValue) : Ctx := (k, v) :: c

/-- Observing a context: the most recently inserted value of a key. -/
def ctxLookup (c : Ctx) (k : String) : Option TValue :=
  match c with
  | [] => none
  | (k1, v) :: rest => if k = k1 then some v else ctxLookup rest k

/-- The `for (index, article)` loop of `Season::render`: clone the season
context, insert the sibling pair and the one-based number, delegate to the
article's render (the `aRender` collaborator) at `season_dir.join(slug)`,
aborting on the first failure.  Returns the list of (context, destination)
pairs delegated to the children. -/
def renderLoop (aRender : Article → Ctx → FsPath → Except RenderErr Unit)
    (s : Season) (ctx1 : Ctx) (seasonDir : FsPath) :
    Nat → List Article → Except RenderErr (List (Ctx × FsPath))
  | _, [] => .ok []
  | i, a :: rest =>
    let ctxI := ctxInsert (ctxInsert ctx1 "siblings"
      (.siblings (s.sibling_articles i))) "number" (.num (i + 1))
    let destI := seasonDir ++ [a.slug]
    match aRender a ctxI destI with
    | .error e => .error e
    | .ok _ =>
      match renderLoop aRender s ctx1 seasonDir (i + 1) rest with
      | .error e => .error e
      | .ok calls => .ok ((ctxI, destI) :: calls)

/-- `Season::render`: compute `season_dir = dest.join(slug)`, insert the
season into (this call's copy of) the context, render every article with its
derived context, then insert the `Meta` record and submit `season.jinja`
with the finalized context to the templating sink.  Returns the child
delegations and the final sink submission. -/
def Season.render (aRender : Article → Ctx → FsPath → Except RenderErr Unit)
    (sink : String → Ctx → FsPath → Except RenderErr Unit)
    (extractDesc : String → String)
    (s : Season) (context : Ctx) (dest : FsPath) :
    Except RenderErr (List (Ctx × FsPath) × (String × Ctx × FsPath)) :=
  let seasonDir := dest ++ [s.slug]
  let ctx1 := ctxInsert context "season" (.season s)
  match renderLoop aRender s ctx1 seasonDir 0 s.articles with
  | .error e => .error e
  | .ok calls =>
    let ctx2 := ctxInsert ctx1 "meta"
      (.metaV s.title (Season.description extractDesc s) (some s.slug) s.cover)
    match sink "season.jinja" ctx2 seasonDir with
    | .error e => .error e
    | .ok _ => .ok (calls, ("season.jinja", ctx2, seasonDir))

/-- The context delegated to the child at absolute position `i` by the
render loop: the season context extended with the sibling pair and the
one-based number. -/
def childCtx (s : Season) (ctx1 : Ctx) (i : Nat) : Ctx :=
  ctxInsert (ctxInsert ctx1 "siblings" (.siblings (s.sibling_articles i)))
    "number" (.num (i + 1))

/-! ### Concrete collaborators and data

Closed instances used to evaluate the development on concrete inputs. -/

/-- A sorting function satisfying the `sort_unstable_by_key` contract at
every input (insertion sort by publication date). -/
def sorterIns : List Article → List Article :=
  List.insertionSort (fun a b => a.pub_date ≤ b.pub_date)

def art1 : Article := { slug := "one", pub_date := 1, markdown := "alpha beta alpha" }

def art2 : Article := { slug := "two", pub_date := 2, markdown := "beta x" }

def art3 : Article := { slug := "three", pub_date := 3, markdown := "gamma" }

/-- Two distinct articles with the same publication date. -/
def artA : Article := { slug := "a-first", pub_date := 5, markdown := "" }

def artB : Article := { slug := "b-second", pub_date := 5, markdown := "" }

/-- A concrete tokenizer (table of segmentations). -/
def cutDemo : String → List String := fun s =>
  if s = "alpha beta alpha" then ["alpha", "beta", "alpha"]
  else if s = "beta x" then ["beta", "x"]
  else if s = "gamma" then ["gamma"]
  else []

def cutNil : String → List String := fun _ => []

def srcDemo : FsPath := ["content"]

def seasonDemo : Season :=
  { slug := "s1", number := 1, title := "T", intro := some "intro.md",
    cover := some "cover.png", path := "season-one", articles := [],
    word_count := [] }

def seasonNoIntro : Season := { seasonDemo with intro := none }

/-- A season in its post-parse shape, used to exercise the render phase. -/
def seasonR : Season :=
  { slug := "s1", number := 1, title := "T", intro := some "intro text",
    cover := none, path := "p", articles := [art1, art2], word_count := [] }

def fsDemo : FsPath → Option String := fun p =>
  if p = ["content", "intro.md"] then some "intro text"
  else if p = ["content", "season-one", "zine.toml"] then some "MANIFEST"
  else none

def fsNone : FsPath → Option String := fun _ => none

def fsIntroOnly : FsPath → Option String := fun p =>
  if p = ["content", "intro.md"] then some "intro text" else none

def tomlDemo : String → Option (List Article) := fun c =>
  if c = "MANIFEST" then some [art1, art2, art3] else none

def aParseDemo : Article → FsPath → Except ParseErr Article := fun a _ => .ok a

def aRenderDemo : Article → Ctx → FsPath → Except RenderErr Unit :=
  fun _ _ _ => .ok ()

def sinkDemo : String → Ctx → FsPath → Except RenderErr Unit :=
  fun _ _ _ => .ok ()

def extractDemo : String → String := fun s => s

/-- The incoming render context of the render demos: it deliberately holds a
"number" binding so that isolation is observable. -/
def ctx0R : Ctx := [("number", TValue.num 99)]

def ctx1R : Ctx := ctxInsert ctx0R "season" (.season seasonR)

/-- The delegation trace of `Season.render` on the render demo. -/
def outR : List (Ctx × FsPath) × (String × Ctx × FsPath) :=
  ([(childCtx seasonR ctx1R 0, ["out", "s1", "one"]),
    (childCtx seasonR ctx1R 1, ["out", "s1", "two"])],
   ("season.jinja",
    ctxInsert ctx1R "meta" (.metaV "T" "intro text" (some "s1") none),
    ["out", "s1"]))

/-- The equal-date scenario: a manifest listing `artA` before `artB`. -/
def sEq : Season :=
  { slug := "se", number := 1, title := "T", intro := none, cover := none,
    path := "p", articles := [], word_count := [] }

def fsEq : FsPath → Option String := fun p =>
  if p = ["content", "p", "zine.toml"] then some "M" else none

def tomlEq : String → Option (List Article) := fun c =>
  if c = "M" then some [artA, artB] else none

/-- The counter-overflow scenario: one article whose markdown the tokenizer
segments into `2^32` copies of the two-character token "aa". -/
def artBig : Article := { slug := "b", pub_date := 1, markdown := "big" }

def cutBig : String → List String := fun s =>
  if s = "big" then List.replicate U32 "aa" else []

def sBig : Season :=
  { slug := "sb", number := 1, title := "T", intro := none, cover := none,
    path := "p", articles := [], word_count := [] }

def fsBig : FsPath → Option String := fun p =>
  if p = ["content", "p", "zine.toml"] then some "MB" else none

def tomlBig : String → Option (List Article) := fun c =>
  if c = "MB" then some [artBig] else none

/-! ### Order facts about `strLt` -/

theorem strLtAux_iff_lex (as bs : List Char) :
    strLtAux as bs = true ↔ List.Lex (· < ·) as bs := by
  induction as generalizing bs with
  | nil =>
    cases bs with
    | nil =>
      simp only [strLtAux, Bool.false_eq_true, false_iff]
      intro h
      cases h
    | cons b bs =>
      simp only [strLtAux, true_iff]
      exact List.Lex.nil
  | cons a as ih =>
    cases bs with
    | nil =>
      simp only [strLtAux, Bool.false_eq_true, false_iff]
      intro h
      cases h
    | cons b bs =>
      by_cases h1 : a < b
      · simp only [strLtAux, h1, if_true, true_iff]
        exact List.Lex.rel h1
      · by_cases h2 : b < a
        · simp only [strLtAux, h1, if_false, h2, if_true, Bool.false_eq_true,
            false_iff]
          intro h
          cases h with
          | cons h => exact lt_irrefl _ h2
          | rel h => exact h1 h
        · have hab : a = b := le_antisymm (not_lt.mp h2) (not_lt.mp h1)
          subst hab
          simp only [strLtAux, h1, if_false, h2, if_false]
          rw [ih]
          constructor
          · exact List.Lex.cons
          · intro h
            cases h with
            | cons h => exact h
            | rel h => exact absurd h h1

/-- `strLt` is the standard lexicographic order on `String`. -/
theorem strLt_iff (s t : String) : strLt s t = true ↔ s < t := by
  rw [String.lt_iff_toList_lt]
  exact strLtAux_iff_lex s.data t.data

theorem strLt_irrefl (s : String) : strLt s s = false := by
  rw [← Bool.not_eq_true, strLt_iff]
  exact lt_irrefl s

theorem strLt_ne {a b : String} (h : strLt a b = true) : a ≠ b :=
  ne_of_lt ((strLt_iff a b).mp h)

theorem strLt_trans {a b c : String} (h1 : strLt a b = true)
    (h2 : strLt b c = true) : strLt a c = true :=
  (strLt_iff a c).mpr (lt_trans ((strLt_iff a b).mp h1) ((strLt_iff b c).mp h2))

theorem strLt_of_not_of_ne {a b : String} (h1 : ¬ strLt a b = true)
    (h2 : ¬ a = b) : strLt b a = true := by
  rw [strLt_iff] at h1 ⊢
  rcases lt_trichotomy a b with h | h | h
  · exact absurd h h1
  · exact absurd h h2
  · exact h

/-! ### Lemmas about the `BTreeMap` model -/

theorem bmAdd_cons (k1 : String) (v : Nat) (rest : List (String × Nat))
    (k : String) :
    bmAdd ((k1, v) :: rest) k =
      if strLt k k1 then (k, 1) :: (k1, v) :: rest
      else if k = k1 then (k1, (v + 1) % U32) :: rest
      else (k1, v) :: bmAdd rest k := rfl

theorem bmLookup_cons (k1 : String) (v : Nat) (rest : List (String × Nat))
    (k : String) :
    bmLookup ((k1, v) :: rest) k = if k = k1 then some v else bmLookup rest k :=
  rfl

theorem bmLookup_bmAdd_ne (m : List (String × Nat)) (k k2 : String)
    (h : k2 ≠ k) : bmLookup (bmAdd m k) k2 = bmLookup m k2 := by
  induction m with
  | nil => simp [bmAdd, bmLookup, h]
  | cons p rest ih =>
    obtain ⟨k1, v⟩ := p
    rw [bmAdd_cons]
    by_cases hlt : strLt k k1 = true
    · rw [if_pos hlt, bmLookup_cons, if_neg h]
    · rw [if_neg hlt]
      by_cases heq : k = k1
      · subst heq
        rw [if_pos rfl, bmLookup_cons, bmLookup_cons, if_neg h, if_neg h]
      · rw [if_neg heq, bmLookup_cons, bmLookup_cons, ih]

theorem bmLookup_none_of_lt (m : List (String × Nat)) (k : String)
    (h : ∀ p ∈ m, strLt k p.1 = true) : bmLookup m k = none := by
  induction m with
  | nil => rfl
  | cons p rest ih =>
    obtain ⟨k1, v⟩ := p
    have hne : k ≠ k1 := strLt_ne (h (k1, v) (List.mem_cons_self _ _))
    rw [bmLookup_cons, if_neg hne]
    exact ih fun q hq => h q (List.mem_cons_of_mem _ hq)

theorem bmAdd_mem (m : List (String × Nat)) (k : String) :
    ∀ p ∈ bmAdd m k, p.1 = k ∨ p ∈ m := by
  induction m with
  | nil =>
    intro p hp
    simp only [bmAdd, List.mem_singleton] at hp
    exact Or.inl (by rw [hp])
  | cons q rest ih =>
    obtain ⟨k1, v⟩ := q
    intro p hp
    rw [bmAdd_cons] at hp
    by_cases hlt : strLt k k1 = true
    · rw [if_pos hlt] at hp
      rcases List.mem_cons.mp hp with hp | hp
      · exact Or.inl (by rw [hp])
      · exact Or.inr hp
    · rw [if_neg hlt] at hp
      by_cases heq : k = k1
      · rw [if_pos heq] at hp
        rcases List.mem_cons.mp hp with hp | hp
        · exact Or.inl (by rw [hp, heq])
        · exact Or.inr (List.mem_cons_of_mem _ hp)
      · rw [if_neg heq] at hp
        rcases List.mem_cons.mp hp with hp | hp
        · exact Or.inr (by rw [hp]; exact List.mem_cons_self _ _)
        · rcases ih p hp with h1 | h1
          · exact Or.inl h1
          · exact Or.inr (List.mem_cons_of_mem _ h1)

theorem bmAdd_sorted (m : List (String × Nat)) (k : String)
    (h : BmSorted m) : BmSorted (bmAdd m k) := by
  induction m with
  | nil => simp [bmAdd, BmSorted]
  | cons q rest ih =>
    obtain ⟨k1, v⟩ := q
    rw [BmSorted, List.pairwise_cons] at h
    obtain ⟨h1, h2⟩ := h
    rw [BmSorted, bmAdd_cons]
    by_cases hlt : strLt k k1 = true
    · rw [if_pos hlt, List.pairwise_cons]
      refine ⟨?_, ?_⟩
      · intro q hq
        rcases List.mem_cons.mp hq with hq | hq
        · rw [hq]
          exact hlt
        · exact strLt_trans hlt (h1 q hq)
      · rw [List.pairwise_cons]
        exact ⟨h1, h2⟩
    · rw [if_neg hlt]
      by_cases heq : k = k1
      · rw [if_pos heq, List.pairwise_cons]
        exact ⟨h1, h2⟩
      · rw [if_neg heq, List.pairwise_cons]
        refine ⟨?_, ih h2⟩
        intro q hq
        rcases bmAdd_mem rest k q hq with hq1 | hq1
        · rw [hq1]
          exact strLt_of_not_of_ne hlt heq
        · exact h1 q hq1

theorem bmLookup_bmAdd_self (m : List (String × Nat)) (k : String)
    (h : BmSorted m) :
    bmLookup (bmAdd m k) k = some (((bmLookup m k).getD 0 + 1) % U32) := by
  induction m with
  | nil =>
    rw [show bmAdd [] k = [(k, 1)] from rfl, bmLookup_cons, if_pos rfl]
    rfl
  | cons q rest ih =>
    obtain ⟨k1, v⟩ := q
    rw [BmSorted, List.pairwise_cons] at h
    obtain ⟨h1, h2⟩ := h
    rw [bmAdd_cons]
    by_cases hlt : strLt k k1 = true
    · have hne : k ≠ k1 := strLt_ne hlt
      have hnone : bmLookup ((k1, v) :: rest) k = none := by
        refine bmLookup_none_of_lt _ _ ?_
        intro p hp
        rcases List.mem_cons.mp hp with hp | hp
        · rw [hp]
          exact hlt
        · exact strLt_trans hlt (h1 p hp)
      rw [if_pos hlt, bmLookup_cons, if_pos rfl, hnone]
      rfl
    · rw [if_neg hlt]
      by_cases heq : k = k1
      · subst heq
        rw [if_pos rfl, bmLookup_cons, if_pos rfl, bmLookup_cons, if_pos rfl]
        rfl
      · rw [if_neg heq, bmLookup_cons, if_neg heq, bmLookup_cons, if_neg heq,
          ih h2]

/-! ### Lemmas about the word-frequency pass -/

theorem countOcc_cons (w x : String) (ws : List String) :
    countOcc w (x :: ws) = (if x = w then 1 else 0) + countOcc w ws := rfl

theorem countOcc_append (w : String) (xs ys : List String) :
    countOcc w (xs ++ ys) = countOcc w xs + countOcc w ys := by
  induction xs with
  | nil => simp [countOcc]
  | cons x xs ih =>
    rw [List.cons_append, countOcc_cons, countOcc_cons, ih]
    omega

theorem addWords_cons (m : List (String × Nat)) (w : String) (ws : List String) :
    addWords m (w :: ws)
      = addWords (if 1 < w.length then bmAdd m w else m) ws := rfl

theorem addWords_sorted (ws : List String) (m : List (String × Nat))
    (h : BmSorted m) : BmSorted (addWords m ws) := by
  induction ws generalizing m with
  | nil => exact h
  | cons w ws ih =>
    rw [addWords_cons]
    by_cases hw : 1 < w.length
    · simp only [hw, if_true]
      exact ih _ (bmAdd_sorted m w h)
    · simp only [hw, if_false]
      exact ih _ h

theorem addWords_lookup_short (ws : List String) (m : List (String × Nat))
    (w : String) (hw : ¬ 1 < w.length) :
    bmLookup (addWords m ws) w = bmLookup m w := by
  induction ws generalizing m with
  | nil => rfl
  | cons x ws ih =>
    rw [addWords_cons]
    by_cases hx : 1 < x.length
    · have hne : w ≠ x := by
        intro hh
        rw [hh] at hw
        exact hw hx
      simp only [hx, if_true]
      rw [ih (bmAdd m x), bmLookup_bmAdd_ne m x w hne]
    · simp only [hx, if_false]
      exact ih m

theorem addWords_lookupD (ws : List String) (m : List (String × Nat))
    (w : String) (h : BmSorted m) (hb : (bmLookup m w).getD 0 < U32)
    (hw : 1 < w.length) :
    (bmLookup (addWords m ws) w).getD 0
      = ((bmLookup m w).getD 0 + countOcc w ws) % U32 := by
  induction ws generalizing m with
  | nil =>
    show (bmLookup m w).getD 0
      = ((bmLookup m w).getD 0 + countOcc w []) % U32
    rw [show countOcc w [] = 0 from rfl, Nat.add_zero, Nat.mod_eq_of_lt hb]
  | cons x ws ih =>
    rw [addWords_cons]
    by_cases hx : 1 < x.length
    · simp only [hx, if_true]
      by_cases hxw : x = w
      · subst hxw
        have hb2 : (bmLookup (bmAdd m x) x).getD 0 < U32 := by
          rw [bmLookup_bmAdd_self m x h, Option.getD_some]
          exact Nat.mod_lt _ (by decide)
        rw [ih (bmAdd m x) (bmAdd_sorted m x h) hb2,
          bmLookup_bmAdd_self m x h, Option.getD_some, countOcc_cons,
          if_pos rfl, Nat.mod_add_mod, Nat.add_assoc]
      · have hb2 : (bmLookup (bmAdd m x) w).getD 0 < U32 := by
          rw [bmLookup_bmAdd_ne m x w fun hh => hxw hh.symm]
          exact hb
        rw [ih (bmAdd m x) (bmAdd_sorted m x h) hb2,
          bmLookup_bmAdd_ne m x w fun hh => hxw hh.symm, countOcc_cons,
          if_neg hxw, Nat.zero_add]
    · simp only [hx, if_false]
      have hxw : x ≠ w := by
        intro hh
        rw [hh] at hx
        exact hx hw
      rw [ih m h hb, countOcc_cons, if_neg hxw, Nat.zero_add]

theorem countTokens_go_sorted (cut : String → List String) (arts : List Article)
    (m : List (String × Nat)) (h : BmSorted m) :
    BmSorted (arts.foldl (fun m a => addWords m (cut a.markdown)) m) := by
  induction arts generalizing m with
  | nil => exact h
  | cons a arts ih =>
    exact ih _ (addWords_sorted _ m h)

/-- The word-frequency table is strictly key-sorted. -/
theorem countTokens_sorted (cut : String → List String) (arts : List Article) :
    BmSorted (countTokens cut arts) :=
  countTokens_go_sorted cut arts [] (by simp [BmSorted])

theorem countTokens_lookup_short (cut : String → List String)
    (arts : List Article) (w : String) (hw : ¬ 1 < w.length) :
    bmLookup (countTokens cut arts) w = none := by
  have hgo : ∀ (l : List Article) (m : List (String × Nat)),
      bmLookup (l.foldl (fun m a => addWords m (cut a.markdown)) m) w
        = bmLookup m w := by
    intro l
    induction l with
    | nil => intro m; rfl
    | cons a l ih =>
      intro m
      rw [List.foldl_cons, ih, addWords_lookup_short _ m w hw]
  exact hgo arts []

theorem countTokens_lookupD (cut : String → List String) (arts : List Article)
    (w : String) (hw : 1 < w.length) :
    (bmLookup (countTokens cut arts) w).getD 0
      = countOcc w (arts.flatMap fun a => cut a.markdown) % U32 := by
  have hgo : ∀ (l : List Article) (m : List (String × Nat)), BmSorted m →
      (bmLookup m w).getD 0 < U32 →
      (bmLookup (l.foldl (fun m a => addWords m (cut a.markdown)) m) w).getD 0
        = ((bmLookup m w).getD 0
            + countOcc w (l.flatMap fun a => cut a.markdown)) % U32 := by
    intro l
    induction l with
    | nil =>
      intro m _ hb
      show (bmLookup m w).getD 0
        = ((bmLookup m w).getD 0
            + countOcc w (([] : List Article).flatMap fun a => cut a.markdown))
          % U32
      rw [show (([] : List Article).flatMap fun a => cut a.markdown) = []
          from rfl,
        show countOcc w [] = 0 from rfl, Nat.add_zero, Nat.mod_eq_of_lt hb]
    | cons a l ih =>
      intro m hm hb
      have hb2 : (bmLookup (addWords m (cut a.markdown)) w).getD 0 < U32 := by
        rw [addWords_lookupD (cut a.markdown) m w hm hb hw]
        exact Nat.mod_lt _ (by decide)
      rw [List.foldl_cons, ih _ (addWords_sorted _ m hm) hb2,
        addWords_lookupD (cut a.markdown) m w hm hb hw, List.flatMap_cons,
        countOcc_append, Nat.mod_add_mod, Nat.add_assoc]
  have h := hgo arts [] (by simp [BmSorted])
    (show (0 : Nat) < U32 by decide)
  rw [countTokens, h,
    show (bmLookup ([] : List (String × Nat)) w).getD 0 = 0 from rfl,
    Nat.zero_add]

/-! ### Lemmas about the parse phase -/

theorem parseArticles_none_map (aParse : Article → FsPath → Except ParseErr Article)
    (dir : FsPath)
    (hpd : ∀ a b, aParse a dir = .ok b → b.pub_date = a.pub_date) :
    ∀ (l l2 : List Article), parseArticles aParse dir l = (l2, none) →
      l2.map Article.pub_date = l.map Article.pub_date := by
  intro l
  induction l with
  | nil =>
    intro l2 h
    simp only [parseArticles] at h
    injection h with h1 _
    rw [← h1]
  | cons a rest ih =>
    intro l2 h
    simp only [parseArticles] at h
    cases haP : aParse a dir with
    | error e =>
      rw [haP] at h
      simp at h
    | ok a2 =>
      rw [haP] at h
      rcases hrec : parseArticles aParse dir rest with ⟨rest2, err⟩
      rw [hrec] at h
      have h1 := congrArg Prod.fst h
      have h2 := congrArg Prod.snd h
      simp only [Prod.fst, Prod.snd] at h1 h2
      rw [h2] at hrec
      rw [← h1, List.map_cons, List.map_cons, hpd a a2 haP, ih rest2 hrec]

theorem parse_eq_intro_none (fs : FsPath → Option String)
    (toml : String → Option (List Article))
    (sorter : List Article → List Article)
    (aParse : Article → FsPath → Except ParseErr Article)
    (cut : String → List String) (s : Season) (source : FsPath)
    (h : s.intro = none) :
    Season.parse fs toml sorter aParse cut s source
      = Season.parseAfterIntro fs toml sorter aParse cut s source [] := by
  simp only [Season.parse, h]

theorem parse_eq_intro_some_none (fs : FsPath → Option String)
    (toml : String → Option (List Article))
    (sorter : List Article → List Article)
    (aParse : Article → FsPath → Except ParseErr Article)
    (cut : String → List String) (s : Season) (source : FsPath) (p : String)
    (h : s.intro = some p) (hfs : fs (source ++ [p]) = none) :
    Season.parse fs toml sorter aParse cut s source
      = ⟨.error .ioError, s, [source ++ [p]]⟩ := by
  simp only [Season.parse, h, hfs]

theorem parse_eq_intro_some_some (fs : FsPath → Option String)
    (toml : String → Option (List Article))
    (sorter : List Article → List Article)
    (aParse : Article → FsPath → Except ParseErr Article)
    (cut : String → List String) (s : Season) (source : FsPath)
    (p text : String)
    (h : s.intro = some p) (hfs : fs (source ++ [p]) = some text) :
    Season.parse fs toml sorter aParse cut s source
      = Season.parseAfterIntro fs toml sorter aParse cut
          { s with intro := some text } source [source ++ [p]] := by
  simp only [Season.parse, h, hfs]

theorem parseAfterIntro_eq_fs_none (fs : FsPath → Option String)
    (toml : String → Option (List Article))
    (sorter : List Article → List Article)
    (aParse : Article → FsPath → Except ParseErr Article)
    (cut : String → List String) (s : Season) (source : FsPath)
    (reads0 : List FsPath)
    (hfs : fs (source ++ [s.path] ++ [ZINE_FILE]) = none) :
    Season.parseAfterIntro fs toml sorter aParse cut s source reads0
      = ⟨.error .ioError, s, reads0 ++ [source ++ [s.path] ++ [ZINE_FILE]]⟩ := by
  simp only [Season.parseAfterIntro, hfs]

theorem parseAfterIntro_ok_inv (fs : FsPath → Option String)
    (toml : String → Option (List Article))
    (sorter : List Article → List Article)
    (aParse : Article → FsPath → Except ParseErr Article)
    (cut : String → List String) (s : Season) (source : FsPath)
    (reads0 : List FsPath)
    (hok : (Season.parseAfterIntro fs toml sorter aParse cut s source
      reads0).result = .ok ()) :
    ∃ content arts parsed,
      fs (source ++ [s.path] ++ [ZINE_FILE]) = some content ∧
      toml content = some arts ∧
      parseArticles aParse (source ++ [s.path]) (sorter arts) = (parsed, none) ∧
      Season.parseAfterIntro fs toml sorter aParse cut s source reads0
        = ⟨.ok (), { s with articles := parsed,
                            word_count := countTokens cut parsed },
            reads0 ++ [source ++ [s.path] ++ [ZINE_FILE]]⟩ := by
  cases hfs : fs (source ++ [s.path] ++ [ZINE_FILE]) with
  | none =>
    rw [parseAfterIntro_eq_fs_none fs toml sorter aParse cut s source reads0
      hfs] at hok
    cases hok
  | some content =>
    cases htoml : toml content with
    | none =>
      have heq : Season.parseAfterIntro fs toml sorter aParse cut s source
          reads0 = ⟨.error .manifestFormatError, s,
            reads0 ++ [source ++ [s.path] ++ [ZINE_FILE]]⟩ := by
        simp only [Season.parseAfterIntro, hfs, htoml]
      rw [heq] at hok
      cases hok
    | some arts =>
      rcases hpa : parseArticles aParse (source ++ [s.path]) (sorter arts)
        with ⟨parsed, errOpt⟩
      cases errOpt with
      | some e =>
        have heq : Season.parseAfterIntro fs toml sorter aParse cut s source
            reads0 = ⟨.error e, { s with articles := parsed },
              reads0 ++ [source ++ [s.path] ++ [ZINE_FILE]]⟩ := by
          simp only [Season.parseAfterIntro, hfs, htoml, hpa]
        rw [heq] at hok
        cases hok
      | none =>
        refine ⟨content, arts, parsed, rfl, htoml, hpa, ?_⟩
        simp only [Season.parseAfterIntro, hfs, htoml, hpa]

/-- Inversion of a successful `Season::parse`: the filesystem and manifest
reads succeeded, every child parse succeeded, and the final state carries
the parsed children together with their word-frequency table. -/
theorem parse_ok_inv (fs : FsPath → Option String)
    (toml : String → Option (List Article))
    (sorter : List Article → List Article)
    (aParse : Article → FsPath → Except ParseErr Article)
    (cut : String → List String) (s : Season) (source : FsPath)
    (hok : (Season.parse fs toml sorter aParse cut s source).result
      = .ok ()) :
    ∃ content arts parsed,
      fs (source ++ [s.path] ++ [ZINE_FILE]) = some content ∧
      toml content = some arts ∧
      parseArticles aParse (source ++ [s.path]) (sorter arts) = (parsed, none) ∧
      (Season.parse fs toml sorter aParse cut s source).state.articles
        = parsed ∧
      (Season.parse fs toml sorter aParse cut s source).state.word_count
        = countTokens cut parsed := by
  cases hintro : s.intro with
  | none =>
    rw [parse_eq_intro_none fs toml sorter aParse cut s source hintro] at hok ⊢
    obtain ⟨content, arts, parsed, h1, h2, h3, h4⟩ :=
      parseAfterIntro_ok_inv fs toml sorter aParse cut s source [] hok
    exact ⟨content, arts, parsed, h1, h2, h3, by rw [h4], by rw [h4]⟩
  | some p =>
    cases hfs1 : fs (source ++ [p]) with
    | none =>
      rw [parse_eq_intro_some_none fs toml sorter aParse cut s source p hintro
        hfs1] at hok
      cases hok
    | some text =>
      rw [parse_eq_intro_some_some fs toml sorter aParse cut s source p text
        hintro hfs1] at hok ⊢
      obtain ⟨content, arts, parsed, h1, h2, h3, h4⟩ :=
        parseAfterIntro_ok_inv fs toml sorter aParse cut
          { s with intro := some text } source [source ++ [p]] hok
      exact ⟨content, arts, parsed, h1, h2, h3, by rw [h4], by rw [h4]⟩

/-! ### Lemmas about the render phase -/

theorem ctxLookup_insert_self (c : Ctx) (k : String) (v : TValue) :
    ctxLookup (ctxInsert c k v) k = some v := by
  simp [ctxInsert, ctxLookup]

theorem ctxLookup_insert_ne (c : Ctx) (k : String) (v : TValue) (k2 : String)
    (h : k2 ≠ k) : ctxLookup (ctxInsert c k v) k2 = ctxLookup c k2 := by
  simp [ctxInsert, ctxLookup, h]

theorem renderLoop_ok_get (aRender : Article → Ctx → FsPath → Except RenderErr Unit)
    (s : Season) (ctx1 : Ctx) (seasonDir : FsPath) :
    ∀ (l : List Article) (i0 : Nat) (calls : List (Ctx × FsPath)),
      renderLoop aRender s ctx1 seasonDir i0 l = .ok calls →
      calls.length = l.length ∧
      ∀ j a, l[j]? = some a →
        calls[j]? = some (childCtx s ctx1 (i0 + j), seasonDir ++ [a.slug]) := by
  intro l
  induction l with
  | nil =>
    intro i0 calls h
    simp only [renderLoop] at h
    injection h with h1
    subst h1
    refine ⟨rfl, ?_⟩
    intro j a hj
    simp at hj
  | cons a rest ih =>
    intro i0 calls h
    simp only [renderLoop] at h
    cases haR : aRender a (childCtx s ctx1 i0) (seasonDir ++ [a.slug]) with
    | error e =>
      rw [show aRender a (ctxInsert (ctxInsert ctx1 "siblings"
        (.siblings (s.sibling_articles i0))) "number" (.num (i0 + 1)))
        (seasonDir ++ [a.slug]) = .error e from haR] at h
      cases h
    | ok u =>
      rw [show aRender a (ctxInsert (ctxInsert ctx1 "siblings"
        (.siblings (s.sibling_articles i0))) "number" (.num (i0 + 1)))
        (seasonDir ++ [a.slug]) = .ok u from haR] at h
      cases hrec : renderLoop aRender s ctx1 seasonDir (i0 + 1) rest with
      | error e =>
        rw [hrec] at h
        cases h
      | ok calls2 =>
        rw [hrec] at h
        injection h with h1
        subst h1
        obtain ⟨hlen, hget⟩ := ih (i0 + 1) calls2 hrec
        refine ⟨by simp [hlen], ?_⟩
        intro j b hj
        cases j with
        | zero =>
          simp only [List.getElem?_cons_zero, Option.some.injEq] at hj
          subst hj
          simp only [List.getElem?_cons_zero, Nat.add_zero]
          rfl
        | succ j =>
          simp only [List.getElem?_cons_succ] at hj
          have hj2 := hget j b hj
          have harith : i0 + (j + 1) = i0 + 1 + j := by omega
          rw [List.getElem?_cons_succ, harith]
          exact hj2

theorem render_ok_inv (aRender : Article → Ctx → FsPath → Except RenderErr Unit)
    (sink : String → Ctx → FsPath → Except RenderErr Unit)
    (extractDesc : String → String) (s : Season) (context : Ctx)
    (dest : FsPath) (out : List (Ctx × FsPath) × (String × Ctx × FsPath))
    (h : Season.render aRender sink extractDesc s context dest = .ok out) :
    renderLoop aRender s (ctxInsert context "season" (.season s))
        (dest ++ [s.slug]) 0 s.articles = .ok out.1 ∧
    out.2 = ("season.jinja",
      ctxInsert (ctxInsert context "season" (.season s)) "meta"
        (.metaV s.title (Season.description extractDesc s) (some s.slug)
          s.cover),
      dest ++ [s.slug]) := by
  simp only [Season.render] at h
  cases hloop : renderLoop aRender s (ctxInsert context "season" (.season s))
      (dest ++ [s.slug]) 0 s.articles with
  | error e =>
    rw [hloop] at h
    cases h
  | ok calls =>
    rw [hloop] at h
    cases hsink : sink "season.jinja"
        (ctxInsert (ctxInsert context "season" (.season s)) "meta"
          (.metaV s.title (Season.description extractDesc s) (some s.slug)
            s.cover))
        (dest ++ [s.slug]) with
    | error e =>
      rw [hsink] at h
      cases h
    | ok u =>
      rw [hsink] at h
      injection h with h1
      rw [← h1]
      exact ⟨rfl, rfl⟩

/-- `Season.parseAfterIntro` never touches the non-derived fields nor
`intro`, and records exactly one read (the manifest), whatever the
outcome. -/
theorem parseAfterIntro_frame (fs : FsPath → Option String)
    (toml : String → Option (List Article))
    (sorter : List Article → List Article)
    (aParse : Article → FsPath → Except ParseErr Article)
    (cut : String → List String) (s : Season) (source : FsPath)
    (reads0 : List FsPath) :
    (Season.parseAfterIntro fs toml sorter aParse cut s source
      reads0).state.slug = s.slug ∧
    (Season.parseAfterIntro fs toml sorter aParse cut s source
      reads0).state.number = s.number ∧
    (Season.parseAfterIntro fs toml sorter aParse cut s source
      reads0).state.title = s.title ∧
    (Season.parseAfterIntro fs toml sorter aParse cut s source
      reads0).state.cover = s.cover ∧
    (Season.parseAfterIntro fs toml sorter aParse cut s source
      reads0).state.path = s.path ∧
    (Season.parseAfterIntro fs toml sorter aParse cut s source
      reads0).state.intro = s.intro ∧
    (Season.parseAfterIntro fs toml sorter aParse cut s source
      reads0).reads = reads0 ++ [source ++ [s.path] ++ [ZINE_FILE]] := by
  cases hfs : fs (source ++ [s.path] ++ [ZINE_FILE]) with
  | none =>
    rw [parseAfterIntro_eq_fs_none fs toml sorter aParse cut s source reads0
      hfs]
    exact ⟨rfl, rfl, rfl, rfl, rfl, rfl, rfl⟩
  | some content =>
    cases htoml : toml content with
    | none =>
      have heq : Season.parseAfterIntro fs toml sorter aParse cut s source
          reads0 = ⟨.error .manifestFormatError, s,
            reads0 ++ [source ++ [s.path] ++ [ZINE_FILE]]⟩ := by
        simp only [Season.parseAfterIntro, hfs, htoml]
      rw [heq]
      exact ⟨rfl, rfl, rfl, rfl, rfl, rfl, rfl⟩
    | some arts =>
      rcases hpa : parseArticles aParse (source ++ [s.path]) (sorter arts)
        with ⟨parsed, errOpt⟩
      cases errOpt with
      | some e =>
        have heq : Season.parseAfterIntro fs toml sorter aParse cut s source
            reads0 = ⟨.error e, { s with articles := parsed },
              reads0 ++ [source ++ [s.path] ++ [ZINE_FILE]]⟩ := by
          simp only [Season.parseAfterIntro, hfs, htoml, hpa]
        rw [heq]
        exact ⟨rfl, rfl, rfl, rfl, rfl, rfl, rfl⟩
      | none =>
        have hok : (Season.parseAfterIntro fs toml sorter aParse cut s source
            reads0).result = .ok () := by
          simp only [Season.parseAfterIntro, hfs, htoml, hpa]
        obtain ⟨c2, a2, p2, _, _, _, h4⟩ :=
          parseAfterIntro_ok_inv fs toml sorter aParse cut s source reads0 hok
        rw [h4]
        exact ⟨rfl, rfl, rfl, rfl, rfl, rfl, rfl⟩

theorem sibling_articles_zero (s : Season) :
    s.sibling_articles 0 = (none, s.articles[1]?) := rfl

theorem sibling_articles_pos (s : Season) (i : Nat) (hi : ¬ i = 0) :
    s.sibling_articles i = (s.articles[i - 1]?, s.articles[i + 1]?) := by
  simp only [Season.sibling_articles, if_neg hi]

/-! ### The claims -/

/-- C3: for a node with `N ≥ 1` children and any valid index `i`,
`sibling_articles i = (child[i-1] if i > 0 else none, child[i+1] if
i+1 < N else none)`; in particular `sibling_articles 0 = (none, child[1]
or none)`, for `N = 1` the result is `(none, none)`, and the successor of
the last child is `none`. -/
theorem sibling_articles_valid_index (s : Season) (i : Nat)
    (h : i < s.articles.length) :
    (s.sibling_articles i
      = ((if hp : 0 < i then some (s.articles.get ⟨i - 1, by omega⟩) else none),
         (if hn : i + 1 < s.articles.length then
            some (s.articles.get ⟨i + 1, hn⟩)
          else none))) ∧
    (s.articles.length = 1 → s.sibling_articles 0 = (none, none)) ∧
    (s.sibling_articles 0 = (none, s.articles[1]?)) ∧
    ((s.sibling_articles (s.articles.length - 1)).2 = none) := by
  refine ⟨?_, ?_, ?_, ?_⟩
  · rcases Nat.eq_zero_or_pos i with hi | hi
    · subst hi
      rw [sibling_articles_zero, dif_neg (by omega : ¬ (0 : Nat) < 0)]
      rw [show (0 : Nat) + 1 = 1 from rfl]
      congr 1
    · rw [sibling_articles_pos s i (by omega), dif_pos hi]
      congr 1
      rw [List.getElem?_eq_getElem (by omega), List.get_eq_getElem]
  · intro h1
    rw [sibling_articles_zero,
      (List.getElem?_eq_none (by omega) : s.articles[1]? = none)]
  · rw [sibling_articles_zero]
  · by_cases h0 : s.articles.length - 1 = 0
    · rw [h0, sibling_articles_zero]
      show s.articles[1]? = none
      rw [List.getElem?_eq_none (by omega)]
    · rw [sibling_articles_pos s (s.articles.length - 1) h0]
      show s.articles[s.articles.length - 1 + 1]? = none
      rw [List.getElem?_eq_none (by omega)]

theorem sibling_articles_valid_index_witness :
    seasonR.sibling_articles 1 = (some art1, none) ∧
    seasonR.sibling_articles 0 = (none, seasonR.articles[1]?) := by
  have h := sibling_articles_valid_index seasonR 1 (by decide)
  refine ⟨?_, h.2.2.1⟩
  rw [h.1]
  rfl

/-- In the idealized (overflow-free) model the out-of-range behavior is:
for `index ≥ N` the result is `(articles[index-1]?, none)`, at `index = N`
with `N ≥ 1` the last child paired with `none`, and `(none, none)` exactly
for `index > N`.  The machine-level statement is
`sibling_articlesU_out_of_range`. -/
theorem sibling_articles_out_of_range (s : Season) (i : Nat)
    (h : s.articles.length ≤ i) :
    (s.sibling_articles i = (s.articles[i - 1]?, none)) ∧
    (∀ hl : 0 < s.articles.length,
      s.sibling_articles s.articles.length
        = (some (s.articles.get ⟨s.articles.length - 1, by omega⟩), none)) ∧
    (s.articles.length < i → s.sibling_articles i = (none, none)) := by
  refine ⟨?_, ?_, ?_⟩
  · rcases Nat.eq_zero_or_pos i with hi | hi
    · subst hi
      rw [sibling_articles_zero,
        (List.getElem?_eq_none (by omega) : s.articles[1]? = none),
        (List.getElem?_eq_none (by omega) : s.articles[0 - 1]? = none)]
    · rw [sibling_articles_pos s i (by omega),
        (List.getElem?_eq_none (by omega) : s.articles[i + 1]? = none)]
  · intro hl
    rw [sibling_articles_pos s s.articles.length (by omega),
      (List.getElem?_eq_none (by omega) :
        s.articles[s.articles.length + 1]? = none),
      List.getElem?_eq_getElem (by omega :
        s.articles.length - 1 < s.articles.length),
      List.get_eq_getElem]
  · intro hl
    rw [sibling_articles_pos s i (by omega),
      (List.getElem?_eq_none (by omega) : s.articles[i - 1]? = none),
      (List.getElem?_eq_none (by omega) : s.articles[i + 1]? = none)]

/-- Wherever `current + 1` does not overflow `usize` — every index except
`usize::MAX` — the machine-level function agrees with the idealized one. -/
theorem sibling_articlesU_eq_of_no_overflow (s : Season) (i : Nat)
    (h : i + 1 < USIZE) :
    sibling_articlesU s i = s.sibling_articles i := by
  by_cases hi : i = 0
  · subst hi
    rfl
  · rw [sibling_articles_pos s i hi]
    simp only [sibling_articlesU, if_neg hi]
    rw [Nat.mod_eq_of_lt (by omega : i - 1 < USIZE), Nat.mod_eq_of_lt h]

/-- C9 (amended): `sibling_articles` never panics in release builds (all
element accesses are bounds-checked options, and the index arithmetic
wraps).  For `N ≤ index` with `index + 1 < 2^64` (every out-of-range index
except `usize::MAX`) the result is `(articles[index-1]?, none)` — at
`index = N` with `N ≥ 1` the last child paired with `none`, and
`(none, none)` for `index > N`.  At `index = usize::MAX` the successor
index wraps to 0 and the result is `(articles[2^64-2]?, articles[0]?)` —
`(none, first child)` for any real list — while debug builds panic on the
overflow, see `sibling_articles_usize_max_wraps`. -/
theorem sibling_articlesU_out_of_range (s : Season) (i : Nat)
    (h : s.articles.length ≤ i) :
    (i + 1 < USIZE →
      (sibling_articlesU s i = (s.articles[i - 1]?, none)) ∧
      (s.articles.length < i → sibling_articlesU s i = (none, none))) ∧
    (∀ hl : 0 < s.articles.length, s.articles.length + 1 < USIZE →
      sibling_articlesU s s.articles.length
        = (some (s.articles.get ⟨s.articles.length - 1, by omega⟩), none)) ∧
    (i = USIZE - 1 →
      sibling_articlesU s i = (s.articles[USIZE - 2]?, s.articles[0]?)) := by
  refine ⟨?_, ?_, ?_⟩
  · intro hlt
    have heq := sibling_articlesU_eq_of_no_overflow s i hlt
    have hold := sibling_articles_out_of_range s i h
    exact ⟨heq.trans hold.1, fun hgt => heq.trans (hold.2.2 hgt)⟩
  · intro hl hlen
    have heq := sibling_articlesU_eq_of_no_overflow s s.articles.length hlen
    have hold := sibling_articles_out_of_range s s.articles.length (le_refl _)
    exact heq.trans (hold.2.1 hl)
  · intro hMAX
    subst hMAX
    simp only [sibling_articlesU,
      if_neg (by decide : ¬ (USIZE - 1 = 0))]
    rw [(by decide : (USIZE - 1 - 1) % USIZE = USIZE - 2),
      (by decide : (USIZE - 1 + 1) % USIZE = 0)]

theorem sibling_articlesU_out_of_range_witness :
    sibling_articlesU seasonR 2 = (seasonR.articles[1]?, none) ∧
    sibling_articlesU seasonR 2 = (some art2, none) ∧
    sibling_articlesU seasonR 3 = (none, none) ∧
    sibling_articlesU seasonR (USIZE - 1)
      = (seasonR.articles[USIZE - 2]?, seasonR.articles[0]?) := by
  have h2 := sibling_articlesU_out_of_range seasonR 2 (by decide)
  have h3 := sibling_articlesU_out_of_range seasonR 3 (by decide)
  have hM := sibling_articlesU_out_of_range seasonR (USIZE - 1) (by decide)
  exact ⟨(h2.1 (by decide)).1, h2.2.1 (by decide) (by decide),
    (h3.1 (by decide)).2 (by decide), hM.2.2 rfl⟩

/-- C9 (counterexample): at `index = usize::MAX` the claimed out-of-range
behavior fails on the machine-level function: for a season with two
articles (so `usize::MAX > N`), the claim demands `(none, none)`, but the
wrapped successor access yields `(none, some art1)` — the first child.
(The claimed panic-freedom also fails there in debug builds, which
overflow-check `current + 1`.) -/
theorem sibling_articles_usize_max_wraps :
    seasonR.articles.length ≤ USIZE - 1 ∧
    sibling_articlesU seasonR (USIZE - 1) = (none, some art1) ∧
    ¬ (∀ i, seasonR.articles.length ≤ i →
        (sibling_articlesU seasonR i).2 = none) := by
  have h := (sibling_articlesU_out_of_range seasonR (USIZE - 1)
    (by decide)).2.2 rfl
  have hval : sibling_articlesU seasonR (USIZE - 1) = (none, some art1) := by
    rw [h,
      (List.getElem?_eq_none (by decide) : seasonR.articles[USIZE - 2]? = none)]
    rfl
  refine ⟨by decide, hval, ?_⟩
  intro hall
  have h2 := hall (USIZE - 1) (by decide)
  rw [hval] at h2
  cases h2

/-- C6: if `intro` holds a path and the file at `source.join(intro_path)`
is missing or unreadable, `parse` fails with an io error and the season is
left entirely unchanged: the missing introduction is not treated as "no
introduction" and no default is substituted. -/
theorem season_parse_intro_missing (fs : FsPath → Option String)
    (toml : String → Option (List Article))
    (sorter : List Article → List Article)
    (aParse : Article → FsPath → Except ParseErr Article)
    (cut : String → List String) (s : Season) (source : FsPath) (p : String)
    (hintro : s.intro = some p)
    (hfs : fs (source ++ [p]) = none) :
    (Season.parse fs toml sorter aParse cut s source).result
      = .error .ioError ∧
    (Season.parse fs toml sorter aParse cut s source).state = s := by
  rw [parse_eq_intro_some_none fs toml sorter aParse cut s source p hintro hfs]
  exact ⟨rfl, rfl⟩

theorem season_parse_intro_missing_witness :
    (Season.parse fsNone tomlDemo id aParseDemo cutDemo seasonDemo
      srcDemo).result = .error .ioError ∧
    (Season.parse fsNone tomlDemo id aParseDemo cutDemo seasonDemo
      srcDemo).state = seasonDemo :=
  season_parse_intro_missing fsNone tomlDemo id aParseDemo cutDemo seasonDemo
    srcDemo "intro.md" rfl rfl

/-- C7: if the manifest file is absent from the working directory, `parse`
fails with an io error, and the articles list and the word-frequency table
still hold their pre-parse values. -/
theorem season_parse_manifest_missing (fs : FsPath → Option String)
    (toml : String → Option (List Article))
    (sorter : List Article → List Article)
    (aParse : Article → FsPath → Except ParseErr Article)
    (cut : String → List String) (s : Season) (source : FsPath)
    (hfs : fs (source ++ [s.path] ++ [ZINE_FILE]) = none) :
    (Season.parse fs toml sorter aParse cut s source).result
      = .error .ioError ∧
    (Season.parse fs toml sorter aParse cut s source).state.articles
      = s.articles ∧
    (Season.parse fs toml sorter aParse cut s source).state.word_count
      = s.word_count := by
  cases hintro : s.intro with
  | none =>
    rw [parse_eq_intro_none fs toml sorter aParse cut s source hintro,
      parseAfterIntro_eq_fs_none fs toml sorter aParse cut s source [] hfs]
    exact ⟨rfl, rfl, rfl⟩
  | some p =>
    cases hfs1 : fs (source ++ [p]) with
    | none =>
      rw [parse_eq_intro_some_none fs toml sorter aParse cut s source p
        hintro hfs1]
      exact ⟨rfl, rfl, rfl⟩
    | some text =>
      rw [parse_eq_intro_some_some fs toml sorter aParse cut s source p text
          hintro hfs1,
        parseAfterIntro_eq_fs_none fs toml sorter aParse cut
          { s with intro := some text } source [source ++ [p]] hfs]
      exact ⟨rfl, rfl, rfl⟩

theorem season_parse_manifest_missing_witness :
    (Season.parse fsIntroOnly tomlDemo id aParseDemo cutDemo seasonDemo
      srcDemo).result = .error .ioError ∧
    (Season.parse fsIntroOnly tomlDemo id aParseDemo cutDemo seasonDemo
      srcDemo).state.articles = seasonDemo.articles ∧
    (Season.parse fsIntroOnly tomlDemo id aParseDemo cutDemo seasonDemo
      srcDemo).state.word_count = seasonDemo.word_count :=
  season_parse_manifest_missing fsIntroOnly tomlDemo id aParseDemo cutDemo
    seasonDemo srcDemo rfl

/-- C10: `parse` only ever mutates `intro`, `articles` and `word_count`:
the `slug`, `number`, `title`, `cover` and `path` fields are unchanged on
every input, whether the call succeeds or fails; and if `intro` is absent
before the call it stays absent and the only file the season's own code
reads is the manifest (no introduction read is attempted). -/
theorem season_parse_frame (fs : FsPath → Option String)
    (toml : String → Option (List Article))
    (sorter : List Article → List Article)
    (aParse : Article → FsPath → Except ParseErr Article)
    (cut : String → List String) (s : Season) (source : FsPath) :
    ((Season.parse fs toml sorter aParse cut s source).state.slug = s.slug ∧
     (Season.parse fs toml sorter aParse cut s source).state.number
       = s.number ∧
     (Season.parse fs toml sorter aParse cut s source).state.title
       = s.title ∧
     (Season.parse fs toml sorter aParse cut s source).state.cover
       = s.cover ∧
     (Season.parse fs toml sorter aParse cut s source).state.path
       = s.path) ∧
    (s.intro = none →
      (Season.parse fs toml sorter aParse cut s source).state.intro = none ∧
      (Season.parse fs toml sorter aParse cut s source).reads
        = [source ++ [s.path] ++ [ZINE_FILE]]) := by
  cases hintro : s.intro with
  | none =>
    rw [parse_eq_intro_none fs toml sorter aParse cut s source hintro]
    have hf := parseAfterIntro_frame fs toml sorter aParse cut s source []
    refine ⟨⟨hf.1, hf.2.1, hf.2.2.1, hf.2.2.2.1, hf.2.2.2.2.1⟩, ?_⟩
    intro _
    refine ⟨?_, ?_⟩
    · rw [hf.2.2.2.2.2.1, hintro]
    · rw [hf.2.2.2.2.2.2, List.nil_append]
  | some p =>
    cases hfs1 : fs (source ++ [p]) with
    | none =>
      rw [parse_eq_intro_some_none fs toml sorter aParse cut s source p
        hintro hfs1]
      refine ⟨⟨rfl, rfl, rfl, rfl, rfl⟩, ?_⟩
      intro hnone
      cases hnone
    | some text =>
      rw [parse_eq_intro_some_some fs toml sorter aParse cut s source p text
        hintro hfs1]
      have hf := parseAfterIntro_frame fs toml sorter aParse cut
        { s with intro := some text } source [source ++ [p]]
      refine ⟨⟨hf.1, hf.2.1, hf.2.2.1, hf.2.2.2.1, hf.2.2.2.2.1⟩, ?_⟩
      intro hnone
      cases hnone

theorem season_parse_frame_witness :
    ((Season.parse fsDemo tomlDemo id aParseDemo cutDemo seasonNoIntro
        srcDemo).state.slug = seasonNoIntro.slug ∧
     (Season.parse fsDemo tomlDemo id aParseDemo cutDemo seasonNoIntro
        srcDemo).state.number = seasonNoIntro.number ∧
     (Season.parse fsDemo tomlDemo id aParseDemo cutDemo seasonNoIntro
        srcDemo).state.title = seasonNoIntro.title ∧
     (Season.parse fsDemo tomlDemo id aParseDemo cutDemo seasonNoIntro
        srcDemo).state.cover = seasonNoIntro.cover ∧
     (Season.parse fsDemo tomlDemo id aParseDemo cutDemo seasonNoIntro
        srcDemo).state.path = seasonNoIntro.path) ∧
    ((Season.parse fsDemo tomlDemo id aParseDemo cutDemo seasonNoIntro
        srcDemo).state.intro = none ∧
     (Season.parse fsDemo tomlDemo id aParseDemo cutDemo seasonNoIntro
        srcDemo).reads
       = [srcDemo ++ [seasonNoIntro.path] ++ [ZINE_FILE]]) := by
  have h := season_parse_frame fsDemo tomlDemo id aParseDemo cutDemo
    seasonNoIntro srcDemo
  exact ⟨h.1, h.2 rfl⟩

theorem countOcc_replicate (w : String) (n : Nat) :
    countOcc w (List.replicate n w) = n := by
  induction n with
  | zero => rfl
  | succ n ih =>
    rw [List.replicate_succ, countOcc_cons, if_pos rfl, ih]
    omega

/-- C2 (amended): after a successful parse, the word-frequency table holds
no token of character length 1, and every token of length ≥ 2 produced by
the tokenizer a total of `k` times across all children's markdown is
mapped to `k mod 2^32` — so to exactly `k` whenever `k < 2^32`.  The
counter is a `u32`, which wraps at `2^32` occurrences in release builds
(debug builds panic there), see `season_word_count_wraps`. -/
theorem season_parse_word_count (fs : FsPath → Option String)
    (toml : String → Option (List Article))
    (sorter : List Article → List Article)
    (aParse : Article → FsPath → Except ParseErr Article)
    (cut : String → List String) (s : Season) (source : FsPath)
    (hok : (Season.parse fs toml sorter aParse cut s source).result
      = .ok ()) :
    (∀ w : String, w.length = 1 →
      bmLookup (Season.parse fs toml sorter aParse cut s
        source).state.word_count w = none) ∧
    (∀ w : String, 2 ≤ w.length →
      (bmLookup (Season.parse fs toml sorter aParse cut s
          source).state.word_count w).getD 0
        = countOcc w
            (((Season.parse fs toml sorter aParse cut s
              source).state.articles).flatMap fun a => cut a.markdown)
          % U32) ∧
    (∀ w : String, 2 ≤ w.length →
      countOcc w
          (((Season.parse fs toml sorter aParse cut s
            source).state.articles).flatMap fun a => cut a.markdown) < U32 →
      (bmLookup (Season.parse fs toml sorter aParse cut s
          source).state.word_count w).getD 0
        = countOcc w
            (((Season.parse fs toml sorter aParse cut s
              source).state.articles).flatMap fun a => cut a.markdown)) := by
  obtain ⟨content, arts, parsed, h1, h2, h3, h4, h5⟩ :=
    parse_ok_inv fs toml sorter aParse cut s source hok
  refine ⟨?_, ?_, ?_⟩
  · intro w hw
    rw [h5]
    exact countTokens_lookup_short cut parsed w (by omega)
  · intro w hw
    rw [h5, h4]
    exact countTokens_lookupD cut parsed w (by omega)
  · intro w hw hk
    rw [h4] at hk
    rw [h5, h4, countTokens_lookupD cut parsed w (by omega),
      Nat.mod_eq_of_lt hk]

theorem season_parse_word_count_witness :
    bmLookup (Season.parse fsDemo tomlDemo id aParseDemo cutDemo seasonDemo
      srcDemo).state.word_count "x" = none ∧
    (bmLookup (Season.parse fsDemo tomlDemo id aParseDemo cutDemo seasonDemo
        srcDemo).state.word_count "alpha").getD 0
      = countOcc "alpha"
          (((Season.parse fsDemo tomlDemo id aParseDemo cutDemo seasonDemo
            srcDemo).state.articles).flatMap fun a => cutDemo a.markdown)
        % U32 ∧
    (bmLookup (Season.parse fsDemo tomlDemo id aParseDemo cutDemo seasonDemo
        srcDemo).state.word_count "alpha").getD 0
      = countOcc "alpha"
          (((Season.parse fsDemo tomlDemo id aParseDemo cutDemo seasonDemo
            srcDemo).state.articles).flatMap fun a => cutDemo a.markdown) := by
  have h := season_parse_word_count fsDemo tomlDemo id aParseDemo cutDemo
    seasonDemo srcDemo rfl
  exact ⟨h.1 "x" (by decide), h.2.1 "alpha" (by decide),
    h.2.2 "alpha" (by decide) (by decide)⟩

/-- C2 (counterexample): "maps that token to exactly k" fails at
`k = 2^32`: here the tokenizer produces the token "aa" exactly `2^32`
times across the (single) child's markdown, parse succeeds, and the
table's `u32` counter has wrapped to 0, not `2^32`. -/
theorem season_word_count_wraps :
    2 ≤ ("aa" : String).length ∧
    countOcc "aa"
        (((Season.parse fsBig tomlBig id aParseDemo cutBig sBig
          ["content"]).state.articles).flatMap fun a => cutBig a.markdown)
      = U32 ∧
    (bmLookup (Season.parse fsBig tomlBig id aParseDemo cutBig sBig
        ["content"]).state.word_count "aa").getD 0 = 0 ∧
    ¬ ((bmLookup (Season.parse fsBig tomlBig id aParseDemo cutBig sBig
          ["content"]).state.word_count "aa").getD 0
        = countOcc "aa"
            (((Season.parse fsBig tomlBig id aParseDemo cutBig sBig
              ["content"]).state.articles).flatMap fun a =>
                cutBig a.markdown)) := by
  have harts : (Season.parse fsBig tomlBig id aParseDemo cutBig sBig
      ["content"]).state.articles = [artBig] := rfl
  have htok : (([artBig] : List Article).flatMap fun a => cutBig a.markdown)
      = List.replicate U32 "aa" := by
    rw [List.flatMap_cons, List.flatMap_nil, List.append_nil]
    rfl
  have hcount : countOcc "aa"
      (((Season.parse fsBig tomlBig id aParseDemo cutBig sBig
        ["content"]).state.articles).flatMap fun a => cutBig a.markdown)
      = U32 := by
    rw [harts, htok, countOcc_replicate]
  have hok : (Season.parse fsBig tomlBig id aParseDemo cutBig sBig
      ["content"]).result = .ok () := rfl
  obtain ⟨content, arts, parsed, h1, h2, h3, h4, h5⟩ :=
    parse_ok_inv fsBig tomlBig id aParseDemo cutBig sBig ["content"] hok
  have hparsed : parsed = [artBig] := by
    rw [← h4, harts]
  have hzero : (bmLookup (Season.parse fsBig tomlBig id aParseDemo cutBig
      sBig ["content"]).state.word_count "aa").getD 0 = 0 := by
    rw [h5, hparsed, countTokens_lookupD cutBig [artBig] "aa" (by decide),
      htok, countOcc_replicate]
    exact Nat.mod_self U32
  refine ⟨by decide, hcount, hzero, ?_⟩
  intro heq
  rw [hzero, hcount] at heq
  exact absurd heq (by decide)

/-- C8: after a successful parse, the word-frequency table's iteration
order is the lexicographic order of the token text (its keys are strictly
increasing in the standard `String` order), for every tokenizer and every
accumulation order. -/
theorem season_parse_word_count_sorted (fs : FsPath → Option String)
    (toml : String → Option (List Article))
    (sorter : List Article → List Article)
    (aParse : Article → FsPath → Except ParseErr Article)
    (cut : String → List String) (s : Season) (source : FsPath)
    (hok : (Season.parse fs toml sorter aParse cut s source).result
      = .ok ()) :
    List.Sorted (· < ·)
      (((Season.parse fs toml sorter aParse cut s
        source).state.word_count).map Prod.fst) := by
  obtain ⟨content, arts, parsed, h1, h2, h3, h4, h5⟩ :=
    parse_ok_inv fs toml sorter aParse cut s source hok
  rw [h5]
  have hs := countTokens_sorted cut parsed
  exact List.pairwise_map.mpr
    (List.Pairwise.imp (fun hpq => (strLt_iff _ _).mp hpq) hs)

theorem season_parse_word_count_sorted_witness :
    List.Sorted (· < ·)
      (((Season.parse fsDemo tomlDemo id aParseDemo cutDemo seasonDemo
        srcDemo).state.word_count).map Prod.fst) :=
  season_parse_word_count_sorted fsDemo tomlDemo id aParseDemo cutDemo
    seasonDemo srcDemo rfl

theorem sorterIns_valid (l : List Article) : IsValidUnstableSort l (sorterIns l) := by
  constructor
  · exact List.perm_insertionSort _ l
  · haveI : IsTotal Article (fun a b : Article => a.pub_date ≤ b.pub_date) :=
      ⟨fun a b => le_total _ _⟩
    haveI : IsTrans Article (fun a b : Article => a.pub_date ≤ b.pub_date) :=
      ⟨fun a b c hab hbc => le_trans hab hbc⟩
    exact List.pairwise_map.mpr
      (List.sorted_insertionSort (fun a b : Article =>
        a.pub_date ≤ b.pub_date) l)

/-- C1 (amended): after a successful parse, the articles list is sorted
ascending by publication date and its publication dates are a permutation
of the manifest list's, for any sort satisfying the `sort_unstable_by_key`
contract and any child parse that preserves publication dates; the
relative order of equal-date entries is NOT guaranteed (the code uses
`sort_unstable_by_key`, see the counterexample). -/
theorem season_parse_articles_sorted (fs : FsPath → Option String)
    (toml : String → Option (List Article))
    (sorter : List Article → List Article)
    (aParse : Article → FsPath → Except ParseErr Article)
    (cut : String → List String) (s : Season) (source : FsPath)
    (hsort : ∀ l, IsValidUnstableSort l (sorter l))
    (hpd : ∀ a d b, aParse a d = .ok b → b.pub_date = a.pub_date)
    (hok : (Season.parse fs toml sorter aParse cut s source).result
      = .ok ()) :
    List.Sorted (· ≤ ·)
      (((Season.parse fs toml sorter aParse cut s
        source).state.articles).map Article.pub_date) ∧
    (∀ content arts, fs (source ++ [s.path] ++ [ZINE_FILE]) = some content →
      toml content = some arts →
      ((((Season.parse fs toml sorter aParse cut s
        source).state.articles).map Article.pub_date)).Perm
        (arts.map Article.pub_date)) := by
  obtain ⟨content, arts, parsed, h1, h2, h3, h4, h5⟩ :=
    parse_ok_inv fs toml sorter aParse cut s source hok
  have hmap : parsed.map Article.pub_date
      = (sorter arts).map Article.pub_date :=
    parseArticles_none_map aParse (source ++ [s.path])
      (fun a b hh => hpd a (source ++ [s.path]) b hh) (sorter arts) parsed h3
  constructor
  · rw [h4, hmap]
    exact (hsort arts).2
  · intro c2 a2 hc2 ha2
    rw [h1] at hc2
    injection hc2 with hc
    subst hc
    rw [h2] at ha2
    injection ha2 with ha
    subst ha
    rw [h4, hmap]
    exact ((hsort arts).1).map Article.pub_date

theorem season_parse_articles_sorted_witness :
    List.Sorted (· ≤ ·)
      (((Season.parse fsDemo tomlDemo sorterIns aParseDemo cutDemo seasonDemo
        srcDemo).state.articles).map Article.pub_date) ∧
    ((((Season.parse fsDemo tomlDemo sorterIns aParseDemo cutDemo seasonDemo
        srcDemo).state.articles).map Article.pub_date)).Perm
      ([art1, art2, art3].map Article.pub_date) := by
  have h := season_parse_articles_sorted fsDemo tomlDemo sorterIns aParseDemo
    cutDemo seasonDemo srcDemo sorterIns_valid
    (fun a d b hh => by injection hh with hh2; rw [← hh2]) rfl
  exact ⟨h.1, h.2 "MANIFEST" [art1, art2, art3] rfl rfl⟩

/-- C1 (counterexample): the claim as stated — equal-date entries keep
their manifest order after parse — is false for the code, because
`sort_unstable_by_key` only promises a sorted permutation.  Here `artA`
and `artB` share a publication date, the manifest lists `[artA, artB]`,
and a sort satisfying the `sort_unstable_by_key` contract at this input
yields a successful parse whose articles are `[artB, artA]`. -/
theorem season_sort_not_stable :
    artA.pub_date = artB.pub_date ∧
    tomlEq "M" = some [artA, artB] ∧
    ¬ (∀ sorter : List Article → List Article,
        IsValidUnstableSort [artA, artB] (sorter [artA, artB]) →
        (Season.parse fsEq tomlEq sorter aParseDemo cutNil sEq
          ["content"]).result = .ok () →
        (Season.parse fsEq tomlEq sorter aParseDemo cutNil sEq
          ["content"]).state.articles = [artA, artB]) := by
  refine ⟨rfl, rfl, ?_⟩
  intro hclaim
  have hvalid : IsValidUnstableSort [artA, artB] (List.reverse [artA, artB]) := by
    constructor
    · exact List.reverse_perm [artA, artB]
    · decide
  have h := hclaim List.reverse hvalid rfl
  have h2 : (Season.parse fsEq tomlEq List.reverse aParseDemo cutNil sEq
      ["content"]).state.articles = [artB, artA] := rfl
  rw [h2] at h
  exact absurd h (by decide)

/-- C5: during a successful render, the context delegated to the child at
zero-based position `index` maps "number" to `index + 1` and "siblings" to
`sibling_articles index`, and the child is rendered into
`destination.join(node slug).join(child slug)`. -/
theorem season_render_child_context
    (aRender : Article → Ctx → FsPath → Except RenderErr Unit)
    (sink : String → Ctx → FsPath → Except RenderErr Unit)
    (extractDesc : String → String) (s : Season) (context : Ctx)
    (dest : FsPath) (out : List (Ctx × FsPath) × (String × Ctx × FsPath))
    (i : Nat) (a : Article)
    (hrender : Season.render aRender sink extractDesc s context dest
      = .ok out)
    (ha : s.articles[i]? = some a) :
    out.1[i]? = some
      (childCtx s (ctxInsert context "season" (.season s)) i,
       dest ++ [s.slug, a.slug]) ∧
    ctxLookup (childCtx s (ctxInsert context "season" (.season s)) i)
      "number" = some (.num (i + 1)) ∧
    ctxLookup (childCtx s (ctxInsert context "season" (.season s)) i)
      "siblings" = some (.siblings (s.sibling_articles i)) := by
  obtain ⟨hloop, hfin⟩ :=
    render_ok_inv aRender sink extractDesc s context dest out hrender
  obtain ⟨hlen, hget⟩ := renderLoop_ok_get aRender s
    (ctxInsert context "season" (.season s)) (dest ++ [s.slug]) s.articles 0
    out.1 hloop
  have h := hget i a ha
  rw [Nat.zero_add] at h
  refine ⟨?_, ?_, ?_⟩
  · rw [h, List.append_assoc]
    rfl
  · exact ctxLookup_insert_self _ _ _
  · unfold childCtx
    rw [ctxLookup_insert_ne _ _ _ _ (by decide), ctxLookup_insert_self]

theorem season_render_child_context_witness :
    outR.1[0]? = some (childCtx seasonR ctx1R 0, ["out", "s1", "one"]) ∧
    ctxLookup (childCtx seasonR ctx1R 0) "number" = some (.num 1) ∧
    ctxLookup (childCtx seasonR ctx1R 0) "siblings"
      = some (.siblings (seasonR.sibling_articles 0)) := by
  have h := season_render_child_context aRenderDemo sinkDemo extractDemo
    seasonR ctx0R ["out"] outR 0 art1 rfl rfl
  exact ⟨h.1, h.2.1, h.2.2⟩

/-- C4: the "siblings"/"number" insertions made for the child at position
`i` are not observable elsewhere: the context delegated to any child `j`
holds exactly its own "siblings" and "number" values and agrees with the
incoming context on every other key (except the node's own "season" key),
and the finalized context used for the node's own template render sees the
incoming context's "siblings" and "number" values, untouched by any
child-loop insertion. -/
theorem season_render_context_isolation
    (aRender : Article → Ctx → FsPath → Except RenderErr Unit)
    (sink : String → Ctx → FsPath → Except RenderErr Unit)
    (extractDesc : String → String) (s : Season) (context : Ctx)
    (dest : FsPath) (out : List (Ctx × FsPath) × (String × Ctx × FsPath))
    (hrender : Season.render aRender sink extractDesc s context dest
      = .ok out) :
    (∀ j c p, out.1[j]? = some (c, p) →
      ctxLookup c "siblings" = some (.siblings (s.sibling_articles j)) ∧
      ctxLookup c "number" = some (.num (j + 1)) ∧
      (∀ k, k ≠ "siblings" → k ≠ "number" → k ≠ "season" →
        ctxLookup c k = ctxLookup context k)) ∧
    ctxLookup out.2.2.1 "siblings" = ctxLookup context "siblings" ∧
    ctxLookup out.2.2.1 "number" = ctxLookup context "number" := by
  obtain ⟨hloop, hfin⟩ :=
    render_ok_inv aRender sink extractDesc s context dest out hrender
  obtain ⟨hlen, hget⟩ := renderLoop_ok_get aRender s
    (ctxInsert context "season" (.season s)) (dest ++ [s.slug]) s.articles 0
    out.1 hloop
  refine ⟨?_, ?_, ?_⟩
  · intro j c p hj
    have hjlen : j < out.1.length := by
      by_contra hcon
      rw [List.getElem?_eq_none (by omega)] at hj
      cases hj
    have hjlen2 : j < s.articles.length := by
      rw [hlen] at hjlen
      exact hjlen
    have h := hget j _ (List.getElem?_eq_getElem hjlen2)
    rw [Nat.zero_add] at h
    rw [h] at hj
    injection hj with hj2
    have hc : c = childCtx s (ctxInsert context "season" (.season s)) j := by
      have h3 := congrArg Prod.fst hj2
      simpa using h3.symm
    subst hc
    refine ⟨?_, ?_, ?_⟩
    · unfold childCtx
      rw [ctxLookup_insert_ne _ _ _ _ (by decide), ctxLookup_insert_self]
    · exact ctxLookup_insert_self _ _ _
    · intro k hk1 hk2 hk3
      unfold childCtx
      rw [ctxLookup_insert_ne _ _ _ _ hk2, ctxLookup_insert_ne _ _ _ _ hk1,
        ctxLookup_insert_ne _ _ _ _ hk3]
  · have hsib : ctxLookup (ctxInsert (ctxInsert context "season"
        (TValue.season s)) "meta" (.metaV s.title
          (Season.description extractDesc s) (some s.slug) s.cover))
        "siblings" = ctxLookup context "siblings" := by
      rw [ctxLookup_insert_ne _ _ _ _ (by decide),
        ctxLookup_insert_ne _ _ _ _ (by decide)]
    rw [hfin]
    exact hsib
  · have hnum : ctxLookup (ctxInsert (ctxInsert context "season"
        (TValue.season s)) "meta" (.metaV s.title
          (Season.description extractDesc s) (some s.slug) s.cover))
        "number" = ctxLookup context "number" := by
      rw [ctxLookup_insert_ne _ _ _ _ (by decide),
        ctxLookup_insert_ne _ _ _ _ (by decide)]
    rw [hfin]
    exact hnum

theorem season_render_context_isolation_witness :
    ctxLookup outR.2.2.1 "number" = some (.num 99) ∧
    ctxLookup (childCtx seasonR ctx1R 1) "number" = some (.num 2) ∧
    ctxLookup (childCtx seasonR ctx1R 1) "other" = ctxLookup ctx0R "other" := by
  have h := season_render_context_isolation aRenderDemo sinkDemo extractDemo
    seasonR ctx0R ["out"] outR rfl
  have hj := h.1 1 (childCtx seasonR ctx1R 1) ["out", "s1", "two"] rfl
  refine ⟨?_, hj.2.1, hj.2.2 "other" (by decide) (by decide) (by decide)⟩
  rw [h.2.2]
  rfl

end Zine
